import Mathlib

/-!
# Verification of the Landweber iteration engine and the residual interpolation helper

This file embeds, over the rationals, the `landweber` class of
`src/EarlyStopping/landweber.py` and the standalone
`calculate_interpolated_residual` function of
`examples/plot_conjugate_gradients.py`, and proves the specified properties
of the estimate update, the residual trace, the risk trace, the iterate
composition law, and the interpolation formula.

Vectors are functions `Fin n → ℚ`, the design matrix is a
`Matrix (Fin n) (Fin p) ℚ`, and numpy reductions (`np.sum(v**2)`,
`np.mean(v)`) are modelled by `sqNorm` and `npMean`.  A second, list-level
model (`LandweberL`) keeps array shapes as run-time data so that
shape-mismatch behaviour of the constructor and of one iteration step can
be stated; there a numpy operation that would raise returns `none`.
-/

namespace EarlyStopping

/-- `np.sum(v ** 2)`: the squared Euclidean norm as a dot product. -/
def sqNorm {n : ℕ} (v : Fin n → ℚ) : ℚ :=
  Matrix.dotProduct v v

/-- `np.mean(v)`: the sum of the entries divided by their number. -/
def npMean {p : ℕ} (v : Fin p → ℚ) : ℚ :=
  (∑ i, v i) / (p : ℚ)

/-- The state of a `landweber` instance: the data bound at construction
(`input_matrix`, `output_variable`, `true_signal`) together with the mutable
estimation quantities (`iter`, `landw_estimate`, `residual_vector`,
`residuals`, and, when a true signal is given, `mse`). -/
structure Landweber (n p : ℕ) where
  input_matrix : Matrix (Fin n) (Fin p) ℚ
  output_variable : Fin n → ℚ
  true_signal : Option (Fin p → ℚ)
  iter : ℕ
  landw_estimate : Fin p → ℚ
  residual_vector : Fin n → ℚ
  residuals : List ℚ
  mse : List ℚ

/-- `landweber.__init__`: bind the data, start the counter at `0`, the
estimate at the zero vector, the residual vector at `output_variable`, the
residual trace at its squared norm, and (when a true signal is given) the
mse trace at the empty array. -/
def landweberInit {n p : ℕ} (input_matrix : Matrix (Fin n) (Fin p) ℚ)
    (output_variable : Fin n → ℚ) (true_signal : Option (Fin p → ℚ)) :
    Landweber n p where
  input_matrix := input_matrix
  output_variable := output_variable
  true_signal := true_signal
  iter := 0
  landw_estimate := fun _ => 0
  residual_vector := output_variable
  residuals := [sqNorm output_variable]
  mse := []

/-- `landweber.__update_strong_error`: append
`np.mean((true_signal - landw_estimate) ** 2)` to the mse trace. -/
def updateStrongError {n p : ℕ} (s : Landweber n p) : Landweber n p :=
  match s.true_signal with
  | some f => { s with mse := s.mse ++ [npMean fun i => (f i - s.landw_estimate i) ^ 2] }
  | none => s

/-- `landweber.__landw_one_iteration`: the gradient update of the estimate,
then recomputation of the residual vector, appending of its squared norm to
the residual trace, incrementing of the counter, and, when a true signal is
present, the strong-error update. -/
def landwOneIteration {n p : ℕ} (s : Landweber n p) : Landweber n p :=
  let est := s.landw_estimate +
    s.input_matrix.transpose.mulVec
      (s.output_variable - s.input_matrix.mulVec s.landw_estimate)
  let rv := s.output_variable - s.input_matrix.mulVec est
  let s' : Landweber n p :=
    { s with
      landw_estimate := est
      residual_vector := rv
      residuals := s.residuals ++ [sqNorm rv]
      iter := s.iter + 1 }
  if s'.true_signal.isSome then updateStrongError s' else s'

/-- `landweber.landw(iter_num)`: `for index in range(iter_num)` performs
`iter_num.toNat` single iterations (an empty loop when `iter_num ≤ 0`). -/
def landw {n p : ℕ} (iter_num : ℤ) (s : Landweber n p) : Landweber n p :=
  landwOneIteration^[iter_num.toNat] s

/-- The state after `k` single iterations from a freshly constructed
instance. -/
def run {n p : ℕ} (A : Matrix (Fin n) (Fin p) ℚ) (y : Fin n → ℚ)
    (ts : Option (Fin p → ℚ)) (k : ℕ) : Landweber n p :=
  landwOneIteration^[k] (landweberInit A y ts)

/-- The state after an arbitrary sequence of `landw` calls from a freshly
constructed instance. -/
def runCalls {n p : ℕ} (A : Matrix (Fin n) (Fin p) ℚ) (y : Fin n → ℚ)
    (ts : Option (Fin p → ℚ)) (calls : List ℤ) : Landweber n p :=
  calls.foldl (fun s c => landw c s) (landweberInit A y ts)

/-- The sequence of residual vectors `y - A·estimate` generated by the
iteration: `r_0 = y` and `r_{k+1} = r_k - A·(Aᵀ·r_k)`. -/
def residVec {n p : ℕ} (A : Matrix (Fin n) (Fin p) ℚ) (y : Fin n → ℚ) :
    ℕ → (Fin n → ℚ)
  | 0 => y
  | k + 1 => residVec A y k - A.mulVec (A.transpose.mulVec (residVec A y k))

lemma sqNorm_nonneg {n : ℕ} (v : Fin n → ℚ) : 0 ≤ sqNorm v :=
  Finset.sum_nonneg fun i _ => mul_self_nonneg (v i)

lemma sqNorm_sub_expand {n : ℕ} (a b : Fin n → ℚ) :
    sqNorm (a - b) = sqNorm a - 2 * Matrix.dotProduct a b + sqNorm b := by
  unfold sqNorm
  rw [Matrix.sub_dotProduct, Matrix.dotProduct_sub, Matrix.dotProduct_sub,
    Matrix.dotProduct_comm b a]
  ring

lemma dotProduct_transpose_mulVec {n p : ℕ} (A : Matrix (Fin n) (Fin p) ℚ)
    (r : Fin n → ℚ) (u : Fin p → ℚ) :
    Matrix.dotProduct r (A.mulVec u) =
      Matrix.dotProduct (A.transpose.mulVec r) u := by
  rw [Matrix.dotProduct_mulVec, Matrix.mulVec_transpose]

/-- Cauchy–Schwarz for the dot product over `ℚ`. -/
lemma dotProduct_sq_le {n : ℕ} (a b : Fin n → ℚ) :
    Matrix.dotProduct a b ^ 2 ≤ sqNorm a * sqNorm b := by
  have h := Finset.sum_mul_sq_le_sq_mul_sq Finset.univ a b
  simpa [sqNorm, Matrix.dotProduct, sq] using h

/-- If the estimate-space update `I - AᵀA` is a contraction, then the
squared operator norm of `A` is at most `2`. -/
lemma sqNorm_mulVec_le_two {n p : ℕ} (A : Matrix (Fin n) (Fin p) ℚ)
    (hA : ∀ v : Fin p → ℚ,
      sqNorm (v - A.transpose.mulVec (A.mulVec v)) ≤ sqNorm v)
    (u : Fin p → ℚ) : sqNorm (A.mulVec u) ≤ 2 * sqNorm u := by
  set M : Fin p → ℚ := A.transpose.mulVec (A.mulVec u) with hM
  have hdot : Matrix.dotProduct u M = sqNorm (A.mulVec u) := by
    rw [hM, dotProduct_transpose_mulVec A.transpose u (A.mulVec u),
      Matrix.transpose_transpose]
    rfl
  have h1 := hA u
  rw [sqNorm_sub_expand] at h1
  have h2 : sqNorm M ≤ 2 * Matrix.dotProduct u M := by linarith
  have h3 := dotProduct_sq_le u M
  have hq0 : 0 ≤ Matrix.dotProduct u M := by
    rw [hdot]; exact sqNorm_nonneg _
  rcases eq_or_lt_of_le hq0 with hq | hq
  · rw [← hdot, ← hq]
    have := sqNorm_nonneg u
    linarith
  · have h4 : Matrix.dotProduct u M ^ 2 ≤ sqNorm u * (2 * Matrix.dotProduct u M) := by
      calc Matrix.dotProduct u M ^ 2 ≤ sqNorm u * sqNorm M := h3
        _ ≤ sqNorm u * (2 * Matrix.dotProduct u M) := by
            have := sqNorm_nonneg u
            nlinarith
    have h5 : Matrix.dotProduct u M * Matrix.dotProduct u M ≤
        (2 * sqNorm u) * Matrix.dotProduct u M := by
      calc Matrix.dotProduct u M * Matrix.dotProduct u M
          = Matrix.dotProduct u M ^ 2 := by ring
        _ ≤ sqNorm u * (2 * Matrix.dotProduct u M) := h4
        _ = (2 * sqNorm u) * Matrix.dotProduct u M := by ring
    have h6 := le_of_mul_le_mul_right h5 hq
    rw [← hdot]; exact h6

/-- One residual step cannot increase the squared residual norm when the
update is a contraction. -/
lemma sqNorm_residStep_le {n p : ℕ} (A : Matrix (Fin n) (Fin p) ℚ)
    (hA : ∀ v : Fin p → ℚ,
      sqNorm (v - A.transpose.mulVec (A.mulVec v)) ≤ sqNorm v)
    (r : Fin n → ℚ) :
    sqNorm (r - A.mulVec (A.transpose.mulVec r)) ≤ sqNorm r := by
  set u : Fin p → ℚ := A.transpose.mulVec r with hu
  rw [sqNorm_sub_expand]
  have h1 : Matrix.dotProduct r (A.mulVec u) = sqNorm u := by
    rw [dotProduct_transpose_mulVec, ← hu]; rfl
  have h2 : sqNorm (A.mulVec u) ≤ 2 * sqNorm u := sqNorm_mulVec_le_two A hA u
  rw [h1]
  linarith

/-- Field-by-field description of one iteration step. -/
lemma landwOneIteration_spec {n p : ℕ} (s : Landweber n p) :
    (landwOneIteration s).input_matrix = s.input_matrix ∧
    (landwOneIteration s).output_variable = s.output_variable ∧
    (landwOneIteration s).true_signal = s.true_signal ∧
    (landwOneIteration s).iter = s.iter + 1 ∧
    (landwOneIteration s).landw_estimate = s.landw_estimate +
      s.input_matrix.transpose.mulVec
        (s.output_variable - s.input_matrix.mulVec s.landw_estimate) ∧
    (landwOneIteration s).residual_vector = s.output_variable -
      s.input_matrix.mulVec ((landwOneIteration s).landw_estimate) ∧
    (landwOneIteration s).residuals =
      s.residuals ++ [sqNorm ((landwOneIteration s).residual_vector)] ∧
    (landwOneIteration s).mse =
      (match s.true_signal with
        | some f => s.mse ++
            [npMean fun i => (f i - (landwOneIteration s).landw_estimate i) ^ 2]
        | none => s.mse) := by
  obtain ⟨A, y, ts, it, est, rv, res, mse⟩ := s
  cases ts <;>
    simp [landwOneIteration, updateStrongError]

lemma run_succ {n p : ℕ} (A : Matrix (Fin n) (Fin p) ℚ) (y : Fin n → ℚ)
    (ts : Option (Fin p → ℚ)) (k : ℕ) :
    run A y ts (k + 1) = landwOneIteration (run A y ts k) :=
  Function.iterate_succ_apply' landwOneIteration k (landweberInit A y ts)

/-- The invariants of a run of `k` iterations: the constructor-bound fields
never change, the counter equals `k`, the residual vector is `residVec k`
and coincides with `y - A·estimate`, the residual trace lists the squared
norms of `residVec 0, …, residVec k`, and the mse trace has one entry per
completed iteration when a true signal is present and stays empty
otherwise. -/
lemma run_spec {n p : ℕ} (A : Matrix (Fin n) (Fin p) ℚ) (y : Fin n → ℚ)
    (ts : Option (Fin p → ℚ)) (k : ℕ) :
    (run A y ts k).input_matrix = A ∧
    (run A y ts k).output_variable = y ∧
    (run A y ts k).true_signal = ts ∧
    (run A y ts k).iter = k ∧
    y - A.mulVec ((run A y ts k).landw_estimate) = residVec A y k ∧
    (run A y ts k).residual_vector = residVec A y k ∧
    (run A y ts k).residuals =
      (List.range (k + 1)).map (fun j => sqNorm (residVec A y j)) ∧
    (run A y ts k).mse.length = (if ts.isSome then k else 0) := by
  induction k with
  | zero =>
      refine ⟨rfl, rfl, rfl, rfl, ?_, rfl, ?_, ?_⟩
      · show y - A.mulVec (fun _ => 0) = y
        have hz : (fun _ => (0 : ℚ)) = (0 : Fin p → ℚ) := rfl
        rw [hz, Matrix.mulVec_zero, sub_zero]
      · simp [run, landweberInit, residVec, List.range_succ]
      · cases ts <;> simp [run, landweberInit]
  | succ k ih =>
      obtain ⟨hA, hy, hts, hit, hest, hrv, hres, hmse⟩ := ih
      obtain ⟨sA, sy, sts, sit, sest, srv, sres, smse⟩ :=
        landwOneIteration_spec (run A y ts k)
      rw [run_succ] at *
      have hest' : (landwOneIteration (run A y ts k)).landw_estimate =
          (run A y ts k).landw_estimate +
            A.transpose.mulVec (residVec A y k) := by
        rw [sest, hA, hy, hest]
      have hnewres : y - A.mulVec ((landwOneIteration (run A y ts k)).landw_estimate) =
          residVec A y (k + 1) := by
        rw [hest', Matrix.mulVec_add, residVec, ← hest]
        abel
      refine ⟨sA.trans hA, sy.trans hy, sts.trans hts, ?_, hnewres, ?_, ?_, ?_⟩
      · rw [sit, hit]
      · rw [srv, hA, hy, hnewres]
      · rw [sres, hres, srv, hA, hy, hnewres]
        simp [List.range_succ]
      · rw [smse]
        cases hts' : ts with
        | none =>
            rw [hts'] at hts hmse
            rw [hts]
            simpa using hmse
        | some f =>
            rw [hts'] at hts hmse
            rw [hts]
            simp only [List.length_append, List.length_cons, List.length_nil]
            simp at hmse ⊢
            omega

lemma getD_range_map (f : ℕ → ℚ) (N m : ℕ) (h : m < N) (d : ℚ) :
    ((List.range N).map f).getD m d = f m := by
  rw [List.getD_eq_getElem?_getD]
  simp [List.getElem?_map, List.getElem?_range, h]

lemma foldl_landw_eq_iterate {n p : ℕ} (s : Landweber n p) (calls : List ℤ) :
    calls.foldl (fun t c => landw c t) s =
      landwOneIteration^[(calls.map Int.toNat).sum] s := by
  induction calls generalizing s with
  | nil => rfl
  | cons c cs ih =>
      simp only [List.foldl_cons, List.map_cons, List.sum_cons]
      rw [ih (landw c s)]
      simp only [landw]
      rw [← Function.iterate_add_apply, Nat.add_comm]

lemma runCalls_eq_run {n p : ℕ} (A : Matrix (Fin n) (Fin p) ℚ) (y : Fin n → ℚ)
    (ts : Option (Fin p → ℚ)) (calls : List ℤ) :
    runCalls A y ts calls = run A y ts ((calls.map Int.toNat).sum) :=
  foldl_landw_eq_iterate (landweberInit A y ts) calls

lemma run_residuals_length {n p : ℕ} (A : Matrix (Fin n) (Fin p) ℚ)
    (y : Fin n → ℚ) (ts : Option (Fin p → ℚ)) (k : ℕ) :
    (run A y ts k).residuals.length = k + 1 := by
  obtain ⟨-, -, -, -, -, -, hres, -⟩ := run_spec A y ts k
  rw [hres]
  simp

/-- C1: for every landweber engine instance, one iteration (the private
step invoked by `landw`) updates the estimate exactly by the fixed-stepsize
gradient rule `new_estimate = estimate + Aᵀ (y - A·estimate)`, where `A` is
the `input_matrix` bound at construction and `y` the `output_variable`
bound at construction. -/
theorem landw_one_iteration_is_gradient_update {n p : ℕ}
    (A : Matrix (Fin n) (Fin p) ℚ) (y : Fin n → ℚ) (ts : Option (Fin p → ℚ))
    (calls : List ℤ) :
    (landwOneIteration (runCalls A y ts calls)).landw_estimate =
      (runCalls A y ts calls).landw_estimate +
        A.transpose.mulVec
          (y - A.mulVec ((runCalls A y ts calls).landw_estimate)) := by
  rw [runCalls_eq_run]
  obtain ⟨hA, hy, -, -, -, -, -, -⟩ := run_spec A y ts ((calls.map Int.toNat).sum)
  obtain ⟨-, -, -, -, sest, -, -, -⟩ :=
    landwOneIteration_spec (run A y ts ((calls.map Int.toNat).sum))
  rw [sest, hA, hy]

/-- C3: for every landweber engine instance and every sequence of `landw`
calls, the residual trace has length equal to the iteration counter plus
one, entry `0` equals the squared norm of the observation vector (the
estimate starts at the zero vector, so the initial residual is `y`
itself), and one further step appends exactly one new entry to the
existing trace, rewriting nothing. -/
theorem residuals_trace_invariants {n p : ℕ} (A : Matrix (Fin n) (Fin p) ℚ)
    (y : Fin n → ℚ) (ts : Option (Fin p → ℚ)) (calls : List ℤ) :
    (runCalls A y ts calls).residuals.length = (runCalls A y ts calls).iter + 1 ∧
    (runCalls A y ts calls).residuals.getD 0 0 = sqNorm y ∧
    ∃ r : ℚ, (landwOneIteration (runCalls A y ts calls)).residuals =
      (runCalls A y ts calls).residuals ++ [r] := by
  rw [runCalls_eq_run]
  obtain ⟨-, -, -, hit, -, -, hres, -⟩ :=
    run_spec A y ts ((calls.map Int.toNat).sum)
  obtain ⟨-, -, -, -, -, -, sres, -⟩ :=
    landwOneIteration_spec (run A y ts ((calls.map Int.toNat).sum))
  refine ⟨?_, ?_, ⟨_, sres⟩⟩
  · rw [hit, run_residuals_length]
  · rw [hres, getD_range_map _ _ 0 (Nat.succ_pos _)]
    rfl

/-- C2: for every landweber engine whose operator makes the update
`I - AᵀA` a contraction on parameter space, the residual trace is
non-increasing: `residuals[m+1] ≤ residuals[m]` whenever entry `m+1` has
been computed. -/
theorem residuals_monotone_under_contraction {n p : ℕ}
    (A : Matrix (Fin n) (Fin p) ℚ) (y : Fin n → ℚ) (ts : Option (Fin p → ℚ))
    (calls : List ℤ) (m : ℕ)
    (hA : ∀ v : Fin p → ℚ,
      sqNorm (v - A.transpose.mulVec (A.mulVec v)) ≤ sqNorm v)
    (hm : m + 1 < (runCalls A y ts calls).residuals.length) :
    (runCalls A y ts calls).residuals.getD (m + 1) 0 ≤
      (runCalls A y ts calls).residuals.getD m 0 := by
  rw [runCalls_eq_run] at hm ⊢
  obtain ⟨-, -, -, -, -, -, hres, -⟩ :=
    run_spec A y ts ((calls.map Int.toNat).sum)
  rw [run_residuals_length] at hm
  rw [hres, getD_range_map _ _ _ hm, getD_range_map _ _ _ (Nat.lt_of_succ_lt hm)]
  show sqNorm (residVec A y (m + 1)) ≤ sqNorm (residVec A y m)
  rw [residVec]
  exact sqNorm_residStep_le A hA (residVec A y m)

/-- Witness for C2 at the 1×1 zero operator, for which `I - AᵀA` is the
identity and hence a contraction, after one iteration. -/
theorem residuals_monotone_under_contraction_witness :
    (∀ v : Fin 1 → ℚ,
      sqNorm (v - (0 : Matrix (Fin 1) (Fin 1) ℚ).transpose.mulVec
        ((0 : Matrix (Fin 1) (Fin 1) ℚ).mulVec v)) ≤ sqNorm v) ∧
    0 + 1 < (runCalls (0 : Matrix (Fin 1) (Fin 1) ℚ) (fun _ => 1) none [1]).residuals.length ∧
    (runCalls (0 : Matrix (Fin 1) (Fin 1) ℚ) (fun _ => 1) none [1]).residuals.getD (0 + 1) 0 ≤
      (runCalls (0 : Matrix (Fin 1) (Fin 1) ℚ) (fun _ => 1) none [1]).residuals.getD 0 0 := by
  have hA : ∀ v : Fin 1 → ℚ,
      sqNorm (v - (0 : Matrix (Fin 1) (Fin 1) ℚ).transpose.mulVec
        ((0 : Matrix (Fin 1) (Fin 1) ℚ).mulVec v)) ≤ sqNorm v := by
    intro v
    rw [Matrix.transpose_zero, Matrix.zero_mulVec, sub_zero]
  have hm : 0 + 1 <
      (runCalls (0 : Matrix (Fin 1) (Fin 1) ℚ) (fun _ => 1) none [1]).residuals.length := by
    rw [runCalls_eq_run, run_residuals_length]
    norm_num
  exact ⟨hA, hm,
    residuals_monotone_under_contraction
      (0 : Matrix (Fin 1) (Fin 1) ℚ) (fun _ => 1) none [1] 0 hA hm⟩

/-- C5: calling `landw a` and then `landw b` (with `a, b ≥ 0`) yields
exactly the same state as the single call `landw (a + b)`: iteration
continues from the current state rather than restarting. -/
theorem landw_incremental_equivalence {n p : ℕ} (s : Landweber n p)
    (a b : ℤ) (ha : 0 ≤ a) (hb : 0 ≤ b) :
    landw b (landw a s) = landw (a + b) s := by
  simp only [landw]
  rw [← Function.iterate_add_apply, Int.toNat_add ha hb, Nat.add_comm]

/-- Witness for C5: two calls of one step each equal a single call of two
steps on a freshly constructed instance. -/
theorem landw_incremental_equivalence_witness :
    (0 : ℤ) ≤ 1 ∧ (0 : ℤ) ≤ 1 ∧
    landw 1 (landw 1 (landweberInit (0 : Matrix (Fin 1) (Fin 1) ℚ) (fun _ => 1) none)) =
      landw (1 + 1) (landweberInit (0 : Matrix (Fin 1) (Fin 1) ℚ) (fun _ => 1) none) :=
  ⟨by decide, by decide,
    landw_incremental_equivalence
      (landweberInit (0 : Matrix (Fin 1) (Fin 1) ℚ) (fun _ => 1) none)
      1 1 (by decide) (by decide)⟩

/-- C10: `landw iter_num` with a nonpositive `iter_num` is a no-op: the
loop `for index in range(iter_num)` has an empty range, so every field of
the engine is left unchanged and no error is raised. -/
theorem landw_nonpos_is_noop {n p : ℕ} (s : Landweber n p) (iter_num : ℤ)
    (h : iter_num ≤ 0) : landw iter_num s = s := by
  simp only [landw]
  rw [Int.toNat_of_nonpos h]
  rfl

/-- Witness for C10: `landw (-3)` leaves a freshly constructed instance
unchanged. -/
theorem landw_nonpos_is_noop_witness :
    (-3 : ℤ) ≤ 0 ∧
    landw (-3) (landweberInit (0 : Matrix (Fin 1) (Fin 1) ℚ) (fun _ => 1) none) =
      landweberInit (0 : Matrix (Fin 1) (Fin 1) ℚ) (fun _ => 1) none :=
  ⟨by decide,
    landw_nonpos_is_noop
      (landweberInit (0 : Matrix (Fin 1) (Fin 1) ℚ) (fun _ => 1) none)
      (-3) (by decide)⟩

/-- C4 counterexample: at construction with a true signal the mse trace is
empty while the residual trace already holds the initial residual, so the
two traces do not have the same length. -/
theorem mse_trace_length_counterexample :
    ¬ ((runCalls (0 : Matrix (Fin 1) (Fin 1) ℚ) (fun _ => 1) (some fun _ => 1) []).mse.length =
      (runCalls (0 : Matrix (Fin 1) (Fin 1) ℚ) (fun _ => 1) (some fun _ => 1) []).residuals.length) := by
  decide

/-- C4 (amended): for every landweber engine constructed with a true
signal, after any sequence of `landw` calls the mse trace is exactly one
entry shorter than the residual trace (one entry per completed iteration,
with no entry for iteration `0`). -/
theorem mse_trace_one_shorter_than_residuals {n p : ℕ}
    (A : Matrix (Fin n) (Fin p) ℚ) (y : Fin n → ℚ) (f : Fin p → ℚ)
    (calls : List ℤ) :
    (runCalls A y (some f) calls).mse.length + 1 =
      (runCalls A y (some f) calls).residuals.length := by
  rw [runCalls_eq_run]
  obtain ⟨-, -, -, -, -, -, -, hmse⟩ :=
    run_spec A y (some f) ((calls.map Int.toNat).sum)
  rw [hmse, run_residuals_length]
  rfl

/-- C9: for every landweber engine constructed with a true signal, each
iteration appends to the mse trace the mean squared deviation between the
(freshly updated) estimate and the true signal, i.e.
`mean((true_signal - estimate)^2)` over the `p` parameter coordinates — a
mean, not a plain squared norm. -/
theorem mse_appends_mean_squared_deviation {n p : ℕ}
    (A : Matrix (Fin n) (Fin p) ℚ) (y : Fin n → ℚ) (f : Fin p → ℚ)
    (calls : List ℤ) :
    (landwOneIteration (runCalls A y (some f) calls)).mse =
      (runCalls A y (some f) calls).mse ++
        [(∑ i, (f i - (landwOneIteration (runCalls A y (some f) calls)).landw_estimate i) ^ 2) / (p : ℚ)] := by
  rw [runCalls_eq_run]
  obtain ⟨-, -, hts, -, -, -, -, -⟩ :=
    run_spec A y (some f) ((calls.map Int.toNat).sum)
  obtain ⟨-, -, -, -, -, -, -, smse⟩ :=
    landwOneIteration_spec (run A y (some f) ((calls.map Int.toNat).sum))
  rw [hts] at smse
  rw [smse]
  rfl

/-- numpy integer indexing into a 1-d array: a non-negative index reads
position `i`, a negative index wraps to `length + i`, and anything else
raises `IndexError` (modelled as `none`). -/
def npGet (l : List ℚ) (i : ℤ) : Option ℚ :=
  if 0 ≤ i then l.get? i.toNat
  else if 0 ≤ (l.length : ℤ) + i then l.get? ((l.length : ℤ) + i).toNat
  else none

/-- `calculate_interpolated_residual` from
`examples/plot_conjugate_gradients.py`: with `f = int(np.floor(index))`,
`c = int(np.ceil(index))` and `alpha = index - f`, return
`(1 - alpha)**2 * residuals[f] + (1 - (1 - alpha)**2) * residuals[c]`;
an out-of-range array access raises (modelled as `none`). -/
def calcInterpolatedResidual (residuals : List ℚ) (index : ℚ) : Option ℚ :=
  let index_ceil : ℤ := ⌈index⌉
  let index_floor : ℤ := ⌊index⌋
  let alpha : ℚ := index - index_floor
  match npGet residuals index_floor, npGet residuals index_ceil with
  | some rf, some rc => some ((1 - alpha) ^ 2 * rf + (1 - (1 - alpha) ^ 2) * rc)
  | _, _ => none

/-- C6: for an in-range real index `t` whose floor entry is `rf` and whose
ceiling entry is `rc`, the interpolation returns the quadratic blend
`(1-α)²·rf + (1-(1-α)²)·rc` with `α = t - ⌊t⌋`, and consequently at an
integer index it returns exactly the stored residual entry. -/
theorem interpolated_residual_formula (residuals : List ℚ) (t : ℚ)
    (rf rc : ℚ) (h0 : 0 ≤ t)
    (hf : residuals.get? (⌊t⌋).toNat = some rf)
    (hc : residuals.get? (⌈t⌉).toNat = some rc) :
    calcInterpolatedResidual residuals t =
      some ((1 - (t - (⌊t⌋ : ℚ))) ^ 2 * rf + (1 - (1 - (t - (⌊t⌋ : ℚ))) ^ 2) * rc) ∧
    (t = (⌊t⌋ : ℚ) → calcInterpolatedResidual residuals t =
      residuals.get? (⌊t⌋).toNat) := by
  have hfl : npGet residuals ⌊t⌋ = some rf := by
    unfold npGet
    rw [if_pos (Int.floor_nonneg.mpr h0)]
    exact hf
  have hcl : npGet residuals ⌈t⌉ = some rc := by
    unfold npGet
    rw [if_pos (Int.ceil_nonneg h0)]
    exact hc
  have hmain : calcInterpolatedResidual residuals t =
      some ((1 - (t - (⌊t⌋ : ℚ))) ^ 2 * rf + (1 - (1 - (t - (⌊t⌋ : ℚ))) ^ 2) * rc) := by
    unfold calcInterpolatedResidual
    simp only [hfl, hcl]
  refine ⟨hmain, fun hti => ?_⟩
  have hα : t - (⌊t⌋ : ℚ) = 0 := by
    rw [← hti]
    exact sub_self t
  rw [hmain, hf, hα]
  norm_num

/-- Witness for C6 on the trace `[4, 1]` at index `1/2`. -/
theorem interpolated_residual_formula_witness :
    (0 : ℚ) ≤ 1 / 2 ∧
    ([4, 1] : List ℚ).get? (⌊(1 / 2 : ℚ)⌋).toNat = some 4 ∧
    ([4, 1] : List ℚ).get? (⌈(1 / 2 : ℚ)⌉).toNat = some 1 ∧
    calcInterpolatedResidual [4, 1] (1 / 2) =
      some ((1 - (1 / 2 - (⌊(1 / 2 : ℚ)⌋ : ℚ))) ^ 2 * 4 +
        (1 - (1 - (1 / 2 - (⌊(1 / 2 : ℚ)⌋ : ℚ))) ^ 2) * 1) := by
  have hflv : (⌊(1 / 2 : ℚ)⌋ : ℤ) = 0 := by norm_num
  have hclv : (⌈(1 / 2 : ℚ)⌉ : ℤ) = 1 := by
    rw [Int.ceil_eq_iff]
    norm_num
  have h0 : (0 : ℚ) ≤ 1 / 2 := by norm_num
  have hf : ([4, 1] : List ℚ).get? (⌊(1 / 2 : ℚ)⌋).toNat = some 4 := by
    rw [hflv]
    rfl
  have hc : ([4, 1] : List ℚ).get? (⌈(1 / 2 : ℚ)⌉).toNat = some 1 := by
    rw [hclv]
    rfl
  exact ⟨h0, hf, hc,
    (interpolated_residual_formula [4, 1] (1 / 2) 4 1 h0 hf hc).1⟩

/-- C7: calling the interpolation with an index `t` exceeding the highest
computed discrete index fails with an out-of-range error (`none`); being a
pure function of the trace and the index, the call touches no other
state. -/
theorem interpolated_residual_out_of_range (residuals : List ℚ) (t : ℚ)
    (h : (residuals.length : ℚ) - 1 < t) :
    calcInterpolatedResidual residuals t = none := by
  have hceil : (residuals.length : ℤ) ≤ ⌈t⌉ := by
    have h1 : ((residuals.length : ℤ) - 1 : ℤ) < ⌈t⌉ := by
      rw [Int.lt_ceil]
      push_cast
      exact h
    omega
  have hc0 : (0 : ℤ) ≤ ⌈t⌉ := le_trans (Int.ofNat_nonneg _) hceil
  have hnone : npGet residuals ⌈t⌉ = none := by
    unfold npGet
    rw [if_pos hc0]
    refine List.get?_eq_none.mpr ?_
    have h2 : ((⌈t⌉).toNat : ℤ) = ⌈t⌉ := Int.toNat_of_nonneg hc0
    omega
  unfold calcInterpolatedResidual
  simp only [hnone]
  cases npGet residuals ⌊t⌋ <;> rfl

/-- Witness for C7 on the one-entry trace `[1]` at index `5`. -/
theorem interpolated_residual_out_of_range_witness :
    (([1] : List ℚ).length : ℚ) - 1 < 5 ∧
    calcInterpolatedResidual [1] 5 = none :=
  ⟨by norm_num, interpolated_residual_out_of_range [1] 5 (by norm_num)⟩

/-! ## List-level model with run-time shapes

To state what happens on a shape mismatch, arrays are modelled as plain
lists and every numpy operation of the class returns `none` exactly when
numpy would raise. -/

/-- The scalar product of two rows of equal length (the core of
`np.dot`). -/
def dotL (a b : List ℚ) : ℚ :=
  (List.zipWith (fun x y => x * y) a b).sum

/-- `np.dot(A, v)` for a 2-d array and a 1-d array: raises unless every
row of `A` has the length of `v`. -/
def npDotMV (A : List (List ℚ)) (v : List ℚ) : Option (List ℚ) :=
  if ∀ row ∈ A, row.length = v.length then some (A.map fun row => dotL row v)
  else none

/-- Elementwise subtraction of two 1-d arrays with numpy's length-1
broadcasting; raises on any other length mismatch. -/
def npSubV (a b : List ℚ) : Option (List ℚ) :=
  if a.length = b.length then some (List.zipWith (fun x y => x - y) a b)
  else
    match a, b with
    | [x], _ => some (b.map fun y => x - y)
    | _, [y] => some (a.map fun x => x - y)
    | _, _ => none

/-- Elementwise addition of two 1-d arrays with numpy's length-1
broadcasting; raises on any other length mismatch. -/
def npAddV (a b : List ℚ) : Option (List ℚ) :=
  if a.length = b.length then some (List.zipWith (fun x y => x + y) a b)
  else
    match a, b with
    | [x], _ => some (b.map fun y => x + y)
    | _, [y] => some (a.map fun x => x + y)
    | _, _ => none

/-- The list-level state of a `landweber` instance. -/
structure LandweberL where
  input_matrix : List (List ℚ)
  output_variable : List ℚ
  true_signal : Option (List ℚ)
  sample_size : ℕ
  para_size : ℕ
  iter : ℕ
  landw_estimate : List ℚ
  residual_vector : List ℚ
  residuals : List ℚ
  mse : List ℚ

/-- `landweber.__init__` at the numpy level.  Its operations — reading
`np.shape`, `np.zeros`, copying `output_variable`, and summing its
squares — are all total: no operation combines `input_matrix` with
`output_variable` or `true_signal`, so no shape comparison ever happens
and the constructor cannot raise.  The `Option` result records that a
raise (were one possible) would be `none`. -/
def landweberInitL (input_matrix : List (List ℚ)) (output_variable : List ℚ)
    (true_signal : Option (List ℚ)) : Option LandweberL :=
  some
    { input_matrix := input_matrix
      output_variable := output_variable
      true_signal := true_signal
      sample_size := input_matrix.length
      para_size := (input_matrix.headD []).length
      iter := 0
      landw_estimate := List.replicate (input_matrix.headD []).length 0
      residual_vector := output_variable
      residuals := [(output_variable.map fun x => x * x).sum]
      mse := [] }

/-- `landweber.__landw_one_iteration` at the numpy level: each `np.dot`
and each elementwise combination can raise on a shape mismatch. -/
def landwOneIterationL (s : LandweberL) : Option LandweberL := do
  let av ← npDotMV s.input_matrix s.landw_estimate
  let grad_input ← npSubV s.output_variable av
  let upd ← npDotMV s.input_matrix.transpose grad_input
  let est ← npAddV s.landw_estimate upd
  let av2 ← npDotMV s.input_matrix est
  let rv ← npSubV s.output_variable av2
  let s' : LandweberL :=
    { s with
      landw_estimate := est
      residual_vector := rv
      residuals := s.residuals ++ [(rv.map fun x => x * x).sum]
      iter := s.iter + 1 }
  match s'.true_signal with
  | some f => do
      let d ← npSubV f est
      some { s' with mse := s'.mse ++ [(d.map fun x => x * x).sum / (d.length : ℚ)] }
  | none => some s'

/-- C8 counterexample: a 2×2 operator with a 3-entry observation vector is
a shape mismatch, yet construction succeeds — no precondition violation is
reported at construction. -/
theorem constructor_shape_mismatch_counterexample :
    ¬ (([[1, 0], [0, 1]] : List (List ℚ)).length = ([1, 2, 3] : List ℚ).length) ∧
    (landweberInitL [[1, 0], [0, 1]] [1, 2, 3] none).isSome = true :=
  ⟨by decide, rfl⟩

/-- C8 (amended): construction never validates shapes and always succeeds,
for any operator, observation vector and optional true signal; a shape
mismatch between the operator's rows and the observation instead surfaces
as an error at the first iteration step. -/
theorem constructor_defers_shape_errors_to_first_step :
    (∀ (A : List (List ℚ)) (y : List ℚ) (ts : Option (List ℚ)),
      (landweberInitL A y ts).isSome = true) ∧
    (landweberInitL [[1, 0], [0, 1]] [1, 2, 3] none).bind landwOneIterationL = none :=
  ⟨fun _ _ _ => rfl, by rfl⟩

end EarlyStopping
